import Mathlib

/-!
Shallow embedding of the request-dispatch core of the `director` reverse
proxy (`internal/proxy/http.go`), together with proofs about the claims of
its specification.  Go maps are embedded as association lists (Go map keys
are unique), machine strings as Lean `String`, and the stateful parts of
`validate` / the HTTP handler as explicit state passing.
-/

set_option autoImplicit false

namespace Director

/-- Model of Go `unicode.IsSpace` restricted to the ASCII whitespace that can
occur in HTTP header values. -/
def isSpaceChar (c : Char) : Bool :=
  c = ' ' || c = '\t' || c = '\n' || c = '\r' || c = '\x0b' || c = '\x0c'

/-- Model of Go `strings.TrimSpace`: drop leading and trailing whitespace. -/
def trimSpace (s : String) : String :=
  ⟨((s.data.dropWhile isSpaceChar).reverse.dropWhile isSpaceChar).reverse⟩

/-- Model of Go `strings.Split(v, ",")` at the character level: split at every
comma, keeping empty fields. -/
def splitCommaChars : List Char → List (List Char)
  | [] => [[]]
  | c :: rest =>
    let r := splitCommaChars rest
    if c = ',' then [] :: r
    else
      match r with
      | [] => [[c]]
      | g :: gs => (c :: g) :: gs

/-- Model of Go `strings.Split(v, ",")`. -/
def splitComma (s : String) : List String :=
  (splitCommaChars s.data).map fun cs => ⟨cs⟩

/-- Model of Go `strings.HasPrefix`. -/
def strStartsWith (s pre : String) : Bool :=
  pre.data.isPrefixOf s.data

/-- Model of Go `strings.HasSuffix`. -/
def strEndsWith (s suf : String) : Bool :=
  suf.data.reverse.isPrefixOf s.data.reverse

/-- Model of Go `net/textproto`'s `validHeaderFieldByte`: the RFC 7230 token
characters. -/
def validHeaderFieldChar (c : Char) : Bool :=
  let n := c.toNat
  (48 ≤ n && n ≤ 57) || (97 ≤ n && n ≤ 122) || (65 ≤ n && n ≤ 90) ||
  n = 33 || (35 ≤ n && n ≤ 39) || n = 42 || n = 43 || n = 45 || n = 46 ||
  n = 94 || n = 95 || n = 96 || n = 124 || n = 126

/-- ASCII upper-casing of one character, as Go does byte-wise. -/
def asciiToUpper (c : Char) : Char :=
  if 97 ≤ c.toNat && c.toNat ≤ 122 then Char.ofNat (c.toNat - 32) else c

/-- ASCII lower-casing of one character, as Go does byte-wise. -/
def asciiToLower (c : Char) : Char :=
  if 65 ≤ c.toNat && c.toNat ≤ 90 then Char.ofNat (c.toNat + 32) else c

/-- Canonical casing pass of `textproto.CanonicalMIMEHeaderKey`: upper-case
a letter at the start or after a hyphen, lower-case every other letter. -/
def canonicalChars : List Char → Bool → List Char
  | [], _ => []
  | c :: cs, upper =>
    (if upper then asciiToUpper c else asciiToLower c) :: canonicalChars cs (c = '-')

/-- Model of Go `textproto.CanonicalMIMEHeaderKey`: if every character is a
valid header-field token character the key is canonically cased, otherwise it
is returned unchanged. -/
def canonicalMIMEHeaderKey (s : String) : String :=
  if s.data.all validHeaderFieldChar then ⟨canonicalChars s.data true⟩ else s

/-- Embedding of Go `http.Header`: a map (association list with unique keys,
as produced by a Go map) from canonical header name to the list of values. -/
abbrev Header := List (String × List String)

/-- Model of Go `http.Header.Get`: canonicalize the key, return the first
value or the empty string. -/
def headerGet (h : Header) (key : String) : String :=
  match h.lookup (canonicalMIMEHeaderKey key) with
  | none => ""
  | some [] => ""
  | some (v :: _) => v

/-- Model of Go `http.Header.Del`: remove the entry of the canonicalized key. -/
def headerDel (h : Header) (key : String) : Header :=
  h.filter fun kv => kv.1 ≠ canonicalMIMEHeaderKey key

/-- Model of Go `http.Header.Set`: replace (or insert) the entry of the
canonicalized key by the single given value. -/
def headerSet (h : Header) (key value : String) : Header :=
  if h.any (fun kv => kv.1 = canonicalMIMEHeaderKey key) then
    h.map fun kv =>
      if kv.1 = canonicalMIMEHeaderKey key then (kv.1, [value]) else kv
  else h ++ [(canonicalMIMEHeaderKey key, [value])]

/-- Model of Go `http.Header.Add`: append a value under the canonicalized key. -/
def headerAdd (h : Header) (key value : String) : Header :=
  if h.any (fun kv => kv.1 = canonicalMIMEHeaderKey key) then
    h.map fun kv =>
      if kv.1 = canonicalMIMEHeaderKey key then (kv.1, kv.2 ++ [value]) else kv
  else h ++ [(canonicalMIMEHeaderKey key, [value])]

/-- Model of a raw Go map membership test `_, ok := h[key]` (no
canonicalization, as in `modifyRequestForProxy`). -/
def headerHasRawKey (h : Header) (key : String) : Bool :=
  h.any fun kv => kv.1 = key

/-- The fixed hop-by-hop header list of `http.go` (`hopHeaders`). -/
def hopHeaders : List String :=
  ["Connection",
   "Proxy-Connection",
   "Keep-Alive",
   "Proxy-Authenticate",
   "Proxy-Authorization",
   "Te",
   "Trailer",
   "Transfer-Encoding",
   "Upgrade"]

/-- Embedding of the fields of Go `url.URL` used by the proxy. -/
structure URL where
  scheme : String
  host : String
  path : String
  rawQuery : String
  deriving Repr, DecidableEq, Inhabited

/-- Request body bytes (`[]byte`). -/
abbrev Bytes := List Nat

/-- Embedding of the fields of Go `http.Request` that the proxy reads or
writes.  `host` is the `Request.Host` override; `close` is `Request.Close`. -/
structure Request where
  url : URL
  host : String
  header : Header
  contentLength : Int
  body : Bytes
  close : Bool
  deriving Repr, DecidableEq, Inhabited

/-- Translation of `singleJoiningSlash` from `http.go`. -/
def singleJoiningSlash (a b : String) : String :=
  let aslash := strEndsWith a "/"
  let slashb := strStartsWith b "/"
  if aslash && slashb then ⟨a.data ++ b.data.drop 1⟩
  else if !aslash && !slashb then a ++ "/" ++ b
  else a ++ b

/-- Translation of `modifyRequestForProxy` from `http.go`: rewrite scheme,
host, path and query of the outbound request to the target, default the
`User-Agent` header, and clear the `Host` override. -/
def modifyRequestForProxy (out_req : Request) (target : URL) : Request :=
  let targetQuery := target.rawQuery
  let url1 : URL :=
    { out_req.url with
      scheme := target.scheme
      host := target.host
      path := singleJoiningSlash target.path out_req.url.path }
  let url2 : URL :=
    { url1 with
      rawQuery :=
        if targetQuery = "" || url1.rawQuery = "" then
          targetQuery ++ url1.rawQuery
        else targetQuery ++ "&" ++ url1.rawQuery }
  let header1 :=
    if headerHasRawKey out_req.header "User-Agent" then out_req.header
    else headerSet out_req.header "User-Agent" ""
  { out_req with url := url2, header := header1, host := "" }

/-- Translation of `cloneHeader` from `http.go` at the level of map contents:
the fresh map holds the same keys and (copied) value slices, so as data it is
the identity.  The allocation behaviour (fresh backing storage per clone) is
modelled separately by `cloneHeaderAlloc` below. -/
def cloneHeader (h : Header) : Header :=
  h.map fun kv => (kv.1, kv.2)

/-- Translation of the hop-by-hop stripping loop at the end of `newRequest`:
for each entry of `hopHeaders` whose value is non-empty, either delete the
headers named in the `Connection` value or delete the header itself. -/
def stripHopHeaders (h : Header) : Header :=
  hopHeaders.foldl
    (fun acc hh =>
      let v := headerGet acc hh
      if v ≠ "" then
        if hh = "Connection" then
          (splitComma v).foldl
            (fun acc2 f =>
              let f := trimSpace f
              if f ≠ "" then headerDel acc2 f else acc2)
            acc
        else headerDel acc hh
      else acc)
    h

/-- Translation of `newRequest` from `http.go`: set the buffered body and its
length, deep-copy the header map, redirect the request at the target, mark it
as not closing the connection, and strip hop-by-hop headers. -/
def newRequest (req : Request) (req_body : Bytes) (req_url : URL) : Request :=
  let new_req :=
    { req with
      contentLength := Int.ofNat req_body.length
      body := req_body
      header := cloneHeader req.header }
  let new_req := modifyRequestForProxy new_req req_url
  let new_req := { new_req with close := false }
  { new_req with header := stripHopHeaders new_req.header }

/-- Embedding of the `ProxyOptions` struct of `http.go` (Go `int` is `Int`). -/
structure ProxyOptions where
  port : Int
  primaryEndpoint : String
  logFile : String
  logLevel : Bool
  maxIdleConns : Int
  maxIdleConnsPerHost : Int
  deriving Repr, DecidableEq, Inhabited

/-- Embedding of the `ProxyConfig` struct: a Go map is an association list
with unique keys, a nil map or pointer is `none`.  The lower-case derived
fields start out nil and are filled in by `validate`. -/
structure ProxyConfig where
  options : Option ProxyOptions
  backends : Option (List (String × String))
  primaryBackend : Option URL := none
  secondaryBackends : Option (List (String × URL)) := none
  deriving Repr, DecidableEq, Inhabited

/-- The process-wide mutable logger state touched by `configureLogger`
(`currentLogLevel`); the log-file redirection is file-system I/O and is
outside the model. -/
structure LoggerState where
  currentLogLevel : Bool
  deriving Repr, DecidableEq, Inhabited

/-- Translation of `configureLogger` from `http.go` restricted to its
process-wide state change: the global log level is set unconditionally. -/
def configureLogger (options : ProxyOptions) (st : LoggerState) : LoggerState :=
  { st with currentLogLevel := options.logLevel }

/-- Split a character list at the first occurrence of a separator character,
reporting whether the separator occurred. -/
def splitOnFirst (sep : Char) : List Char → List Char × Option (List Char)
  | [] => ([], none)
  | c :: rest =>
    if c = sep then ([], some rest)
    else
      let (a, b) := splitOnFirst sep rest
      (c :: a, b)

/-- Split a character list at the first occurrence of a pattern, or `none`
when the pattern does not occur. -/
def splitAtSub (pat : List Char) : List Char → Option (List Char × List Char)
  | [] => if pat.isEmpty then some ([], []) else none
  | c :: rest =>
    if pat.isPrefixOf (c :: rest) then some ([], (c :: rest).drop pat.length)
    else
      match splitAtSub pat rest with
      | none => none
      | some (a, b) => some (c :: a, b)

/-- Modelled from Go `net/url.Parse` (standard library, outside this
repository), coarsely: parsing fails exactly when the string contains an
ASCII control character; otherwise the string is split as
`scheme://host/path?rawQuery` (each part possibly empty; without a `://`
everything before `?` is the path). -/
def urlParse (s : String) : Option URL :=
  if s.data.any (fun c => c.toNat < 32 || c.toNat = 127) then none
  else
    match splitAtSub [':', '/', '/'] s.data with
    | some (schemeChars, rest) =>
      let (beforeQ, qOpt) := splitOnFirst '?' rest
      let (hostChars, pOpt) := splitOnFirst '/' beforeQ
      some { scheme := ⟨schemeChars⟩
             host := ⟨hostChars⟩
             path := ⟨match pOpt with | some p => '/' :: p | none => []⟩
             rawQuery := ⟨qOpt.getD []⟩ }
    | none =>
      let (beforeQ, qOpt) := splitOnFirst '?' s.data
      some { scheme := "", host := "", path := ⟨beforeQ⟩, rawQuery := ⟨qOpt.getD []⟩ }

/-- Translation of `proxyError` from `http.go`. -/
def proxyError (msg : String) : String :=
  "[HTTP Proxy] " ++ msg

/-- Translation of the backend loop of `validate` (`for k, v := range
config.Backends`); a Go map ranges over its entries in some order, so the
entries are taken in list order.  The `Invalid url` message carries the
parse error text in the source; the model keeps the fixed part of the
message. -/
def validateLoop (opts : ProxyOptions) :
    List (String × String) → ProxyConfig → LoggerState →
      Option String × Option ProxyConfig × LoggerState
  | [], config, lg => (none, some config, lg)
  | (k, v) :: rest, config, lg =>
    if v = "" then
      (some (proxyError ("Backend endpoint with ID: " ++ k ++
        " does not have any associated data")), some config, lg)
    else
      match urlParse v with
      | none =>
        (some (proxyError ("Invalid url: " ++ v ++ " for endpoint with ID: " ++ k)),
          some config, lg)
      | some backend_url =>
        if k = opts.primaryEndpoint then
          validateLoop opts rest { config with primaryBackend := some backend_url } lg
        else
          validateLoop opts rest
            { config with
              secondaryBackends :=
                some ((config.secondaryBackends.getD []) ++ [(k, backend_url)]) } lg

/-- Translation of `validate` from `http.go`, as an explicit state
transformer: it returns the error (if any), the configuration object it was
given (with whatever derived fields it has written by the time it returns),
and the process-wide logger state. -/
def validate (config : Option ProxyConfig) (lg : LoggerState) :
    Option String × Option ProxyConfig × LoggerState :=
  match config with
  | none => (some (proxyError "Configuration for proxy must be provided"), none, lg)
  | some config =>
    match config.options with
    | none => (some (proxyError "Proxy options are missing"), some config, lg)
    | some opts =>
      let lg := configureLogger opts lg
      if opts.port = 0 then
        (some (proxyError "Proxy port is missing in proxy options"), some config, lg)
      else if opts.primaryEndpoint = "" then
        (some (proxyError "Primary endpoint is missing in proxy options"), some config, lg)
      else
        match config.backends with
        | none => (some (proxyError "Backends are missing or empty"), some config, lg)
        | some bs =>
          if bs.length = 0 then
            (some (proxyError "Backends are missing or empty"), some config, lg)
          else
            let config1 := { config with secondaryBackends := some [] }
            if ¬ bs.any (fun kv => kv.1 = opts.primaryEndpoint) then
              (some (proxyError "Primary backend missing from the given set of backends"),
                some config1, lg)
            else
              validateLoop opts bs config1 lg

/-- Go `http.StatusServiceUnavailable`. -/
def statusServiceUnavailable : Nat := 503

/-- Embedding of the parts of Go `http.Response` the proxy reads. -/
structure Response where
  status : Nat
  header : Header
  body : String
  deriving Repr, DecidableEq, Inhabited

/-- The caller-visible state of the `http.ResponseWriter`: headers, the
written status code and the accumulated body bytes. -/
structure CallerResponse where
  header : Header
  status : Nat
  body : String
  deriving Repr, DecidableEq, Inhabited

/-- Translation of `copyHeader` from `http.go`. -/
def copyHeader (dst src : Header) : Header :=
  src.foldl (fun d kv => kv.2.foldl (fun d2 v => headerAdd d2 kv.1 v) d) dst

/-- Translation of `copyResponse` from `http.go`: copy the headers, write the
backend status, stream the body (modelled as one write; the error-append
branch concerns I/O stream failures outside the model). -/
def copyResponse (rw : CallerResponse) (res : Response) : CallerResponse :=
  { rw with
    header := copyHeader rw.header res.header
    status := res.status
    body := rw.body ++ res.body }

/-- Model of `fmt.Fprintln(rw, s)`: write the string followed by a newline. -/
def fprintln (rw : CallerResponse) (s : String) : CallerResponse :=
  { rw with body := rw.body ++ s ++ "\n" }

/-- Outcome of one `transport.RoundTrip` call inside `requestToBackend`; the
network itself is outside the model, so each backend's outcome is an input
of the handler model. -/
abbrev TransportResult := Except String Response

/-- A fresh `http.ResponseWriter` before the handler writes anything (an
unset status defaults to 200 OK). -/
def initialCallerResponse : CallerResponse :=
  { header := [], status := 200, body := "" }

/-- Everything `(*Director).handler` produces for one inbound request: the
caller-visible response and the outbound requests dispatched to the primary
and to each secondary backend. -/
structure HandlerResult where
  caller : CallerResponse
  primaryRequest : Request
  secondaryDispatches : List (String × Request)
  deriving Repr, DecidableEq, Inhabited

/-- Translation of `(*Director).handler` from `http.go`.  `readRequestBody`
is modelled by the buffered `req.body` (its error branch concerns stream I/O
outside the model).  The primary outcome decides the caller response; the
spawned goroutine builds one outbound request per entry of
`secondaryBackends` and never touches the response writer, so the secondary
outcomes are parameters the caller response does not consume. -/
def handler (config : ProxyConfig) (req : Request)
    (primaryResult : TransportResult)
    (secondaryResults : List TransportResult) : HandlerResult :=
  let body := req.body
  let primary_request := newRequest req body (config.primaryBackend.getD default)
  let rw :=
    match primaryResult with
    | .ok res => copyResponse initialCallerResponse res
    | .error err => fprintln { initialCallerResponse with status := statusServiceUnavailable } err
  { caller := rw
    primaryRequest := primary_request
    secondaryDispatches :=
      (config.secondaryBackends.getD []).map fun kv => (kv.1, newRequest req body kv.2) }

/-- Model of a `MetricsReporter` interface value: the no-op reporter or some
external implementation; a nil interface value is `none` where an
`Option Reporter` is used. -/
inductive Reporter where
  | noOp
  | external (id : Nat)
  deriving Repr, DecidableEq, Inhabited

/-- Embedding of the `Director` struct (its `Handler` field is the closure
`handler` above).  The reporter field holds an interface value that could in
principle be nil, hence `Option`. -/
structure Director where
  reporter : Option Reporter
  config : ProxyConfig
  deriving Repr, DecidableEq, Inhabited

/-- Translation of `NewDirector` from `http.go`.  The final pattern is
unreachable: `validate` only returns no error when it was given a
configuration, which it returns. -/
def NewDirector (proxyConfig : Option ProxyConfig) (lg : LoggerState) :
    Except String Director × LoggerState :=
  match validate proxyConfig lg with
  | (some err, _, lg1) => (.error err, lg1)
  | (none, some config, lg1) => (.ok { reporter := some .noOp, config := config }, lg1)
  | (none, none, lg1) => (.error (proxyError "Configuration for proxy must be provided"), lg1)

/-- Translation of `(*Director).WithMetricsReporter` from `http.go`: only a
non-nil reporter replaces the installed one. -/
def WithMetricsReporter (b : Director) (reporter : Option Reporter) : Director :=
  match reporter with
  | some r => { b with reporter := some r }
  | none => b

/-- Store of allocated header value slices; in the allocation-level model a
header map holds, per key, a reference (index) into such a store. -/
abbrev Store := List (List String)

/-- A header map at the allocation level: each key maps to a reference to a
value slice in the store. -/
abbrev RefHeader := List (String × Nat)

/-- Read the value slice a reference points to. -/
def readRef (st : Store) (r : Nat) : List String :=
  st.getD r []

/-- Overwrite the value slice a reference points to (mutating one clone's
slice in place). -/
def writeRef (st : Store) (r : Nat) (v : List String) : Store :=
  st.set r v

/-- Translation of `cloneHeader` from `http.go` at the allocation level: for
every entry of the map a fresh value slice is allocated (`make` + `copy`) at
the end of the store and the fresh map binds the key to that fresh slice.
`newRequest` installs exactly such a clone as the outbound header map. -/
def cloneHeaderAlloc : RefHeader → Store → RefHeader × Store
  | [], st => ([], st)
  | kv :: rest, st =>
    let fresh := st.length
    let st1 := st ++ [readRef st kv.2]
    let res := cloneHeaderAlloc rest st1
    ((kv.1, fresh) :: res.1, res.2)

/-! Concrete inputs used by witnesses, counterexamples and code evaluations. -/

/-- A fully valid options block (port 9090, primary id `p`). -/
def optsOk : ProxyOptions :=
  { port := 9090, primaryEndpoint := "p", logFile := "", logLevel := false,
    maxIdleConns := 0, maxIdleConnsPerHost := 0 }

/-- A fully valid configuration with one primary and one secondary backend. -/
def cfgOk : ProxyConfig :=
  { options := some optsOk,
    backends := some [("p", "http://ph"), ("s", "http://sh/base")] }

/-- The configuration object as `validate` leaves it on success for `cfgOk`. -/
def cfgOkV : ProxyConfig :=
  { options := some optsOk,
    backends := some [("p", "http://ph"), ("s", "http://sh/base")],
    primaryBackend := some { scheme := "http", host := "ph", path := "", rawQuery := "" },
    secondaryBackends :=
      some [("s", { scheme := "http", host := "sh", path := "/base", rawQuery := "" })] }

/-- Options with a negative port (all other fields valid). -/
def optsNeg : ProxyOptions :=
  { port := -1, primaryEndpoint := "p", logFile := "", logLevel := false,
    maxIdleConns := 0, maxIdleConnsPerHost := 0 }

/-- A configuration whose port is `-1` and which is otherwise valid. -/
def cfgNeg : ProxyConfig :=
  { options := some optsNeg, backends := some [("p", "http://ph")] }

/-- Options with port `0` (all other fields valid). -/
def optsZero : ProxyOptions :=
  { port := 0, primaryEndpoint := "p", logFile := "", logLevel := false,
    maxIdleConns := 0, maxIdleConnsPerHost := 0 }

/-- A configuration whose port is `0`. -/
def cfgZero : ProxyConfig :=
  { options := some optsZero, backends := some [("p", "http://ph")] }

/-- An inbound request carrying `Connection: close` and `Keep-Alive: 300`. -/
def reqConn : Request :=
  { url := { scheme := "http", host := "in", path := "/p", rawQuery := "" },
    host := "in",
    header := [("Connection", ["close"]), ("Keep-Alive", ["300"])],
    contentLength := 0, body := [], close := true }

/-- A backend target URL. -/
def backendURL : URL :=
  { scheme := "http", host := "b", path := "", rawQuery := "" }

/-- An inbound request with a non-empty query string. -/
def reqQ : Request :=
  { url := { scheme := "http", host := "in", path := "/p", rawQuery := "b=2" },
    host := "in", header := [], contentLength := 0, body := [], close := false }

/-- A backend target URL with a non-empty query string. -/
def targetQ : URL :=
  { scheme := "http", host := "t", path := "", rawQuery := "a=1" }

/-- The director value `NewDirector` produces for `cfgOk`. -/
def dOk : Director :=
  { reporter := some Reporter.noOp, config := cfgOkV }

/-- Options that ask for INFO logging but carry port `0`. -/
def optsLog : ProxyOptions :=
  { port := 0, primaryEndpoint := "p", logFile := "", logLevel := true,
    maxIdleConns := 0, maxIdleConnsPerHost := 0 }

/-- A failing configuration (port `0`) whose options request INFO logging. -/
def cfgLog : ProxyConfig :=
  { options := some optsLog, backends := some [("p", "http://ph")] }

/-- Valid options whose primary id `b` is not a backend key below. -/
def optsNP : ProxyOptions :=
  { port := 1, primaryEndpoint := "b", logFile := "", logLevel := false,
    maxIdleConns := 0, maxIdleConnsPerHost := 0 }

/-- A configuration whose backends do not contain the primary id. -/
def cfgNoPrim : ProxyConfig :=
  { options := some optsNP, backends := some [("a", "http://x")] }

/-! Theorems. -/

theorem validateLoop_logger (opts : ProxyOptions) :
    ∀ (bs : List (String × String)) (config : ProxyConfig) (lg : LoggerState),
    (validateLoop opts bs config lg).2.2 = lg := by
  intro bs
  induction bs with
  | nil => intro config lg; rfl
  | cons kv rest ih =>
    intro config lg
    rcases kv with ⟨k, v⟩
    by_cases hv : v = ""
    · simp [validateLoop, hv]
    · rcases hu : urlParse v with _ | u
      · simp [validateLoop, hv, hu]
      · by_cases hk : k = opts.primaryEndpoint <;> simp [validateLoop, hv, hu, hk, ih]

theorem validateLoop_secondary_ids (opts : ProxyOptions) :
    ∀ (bs : List (String × String)) (config config1 : ProxyConfig)
      (lg lg1 : LoggerState),
    validateLoop opts bs config lg = (none, some config1, lg1) →
    (config1.secondaryBackends.getD []).map Prod.fst =
      (config.secondaryBackends.getD []).map Prod.fst ++
        (bs.map Prod.fst).filter (fun k => k ≠ opts.primaryEndpoint) := by
  intro bs
  induction bs with
  | nil =>
    intro config config1 lg lg1 h
    simp only [validateLoop, Prod.mk.injEq, Option.some.injEq] at h
    rw [← h.2.1]
    simp
  | cons kv rest ih =>
    intro config config1 lg lg1 h
    rcases kv with ⟨k, v⟩
    by_cases hv : v = ""
    · simp [validateLoop, hv] at h
    · rcases hu : urlParse v with _ | u
      · simp [validateLoop, hv, hu] at h
      · by_cases hk : k = opts.primaryEndpoint
        · simp only [validateLoop, hv, hu] at h
          rw [if_pos hk] at h
          have h2 := ih _ _ _ _ h
          rw [h2]
          simp [List.filter_cons, hk]
        · simp only [validateLoop, hv, hu] at h
          rw [if_neg hk] at h
          have h2 := ih _ _ _ _ h
          rw [h2]
          simp [List.filter_cons, hk]

theorem validateLoop_primary_untouched (opts : ProxyOptions) :
    ∀ (bs : List (String × String)) (config config1 : ProxyConfig)
      (lg lg1 : LoggerState),
    validateLoop opts bs config lg = (none, some config1, lg1) →
    (∀ kv ∈ bs, kv.1 ≠ opts.primaryEndpoint) →
    config1.primaryBackend = config.primaryBackend := by
  intro bs
  induction bs with
  | nil =>
    intro config config1 lg lg1 h _
    simp only [validateLoop, Prod.mk.injEq, Option.some.injEq] at h
    rw [← h.2.1]
  | cons kv rest ih =>
    intro config config1 lg lg1 h hk
    rcases kv with ⟨k, v⟩
    by_cases hv : v = ""
    · simp [validateLoop, hv] at h
    · rcases hu : urlParse v with _ | u
      · simp [validateLoop, hv, hu] at h
      · have hkp : k ≠ opts.primaryEndpoint := hk (k, v) (List.mem_cons_self _ _)
        simp only [validateLoop, hv, hu] at h
        rw [if_neg hkp] at h
        have h2 := ih _ _ _ _ h (fun kv hm => hk kv (List.mem_cons_of_mem _ hm))
        rw [h2]

theorem validateLoop_primary_set (opts : ProxyOptions) :
    ∀ (bs : List (String × String)) (config config1 : ProxyConfig)
      (lg lg1 : LoggerState) (v : String),
    validateLoop opts bs config lg = (none, some config1, lg1) →
    (bs.map Prod.fst).Nodup →
    (opts.primaryEndpoint, v) ∈ bs →
    config1.primaryBackend = urlParse v ∧ (urlParse v).isSome = true := by
  intro bs
  induction bs with
  | nil => intro config config1 lg lg1 v _ _ hm; exact absurd hm (by simp)
  | cons kv rest ih =>
    intro config config1 lg lg1 v h hnd hm
    rcases kv with ⟨k, w⟩
    rcases List.mem_cons.mp hm with heq | hm2
    · have hk : k = opts.primaryEndpoint := by
        have := congrArg Prod.fst heq.symm
        simpa using this
      have hw : w = v := by
        have := congrArg Prod.snd heq.symm
        simpa using this
      subst hk hw
      by_cases hv : w = ""
      · simp [validateLoop, hv] at h
      · rcases hu : urlParse w with _ | u
        · simp [validateLoop, hv, hu] at h
        · simp [validateLoop, hv, hu] at h
          have hrest : ∀ kv ∈ rest, kv.1 ≠ opts.primaryEndpoint := by
            intro kv hmem hcon
            have hni : opts.primaryEndpoint ∉ rest.map Prod.fst :=
              (List.nodup_cons.mp (by simpa using hnd)).1
            exact hni (hcon ▸ List.mem_map_of_mem Prod.fst hmem)
          have hpr := validateLoop_primary_untouched opts rest _ _ _ _ h hrest
          rw [hpr]
          simp
    · have hk : k ≠ opts.primaryEndpoint := by
        intro hcon
        have hnotin : k ∉ rest.map Prod.fst := (List.nodup_cons.mp (by simpa using hnd)).1
        exact hnotin (by
          subst hcon
          exact List.mem_map_of_mem Prod.fst hm2)
      by_cases hv : w = ""
      · simp [validateLoop, hv] at h
      · rcases hu : urlParse w with _ | u
        · simp [validateLoop, hv, hu] at h
        · simp only [validateLoop, hv, hu] at h
          rw [if_neg hk] at h
          exact ih _ _ _ _ _ h (List.nodup_cons.mp (by simpa using hnd)).2 hm2

theorem validate_success_elim :
    ∀ (cfg cfg1 : ProxyConfig) (lg lg1 : LoggerState),
    validate (some cfg) lg = (none, some cfg1, lg1) →
    ∃ (opts : ProxyOptions) (bs : List (String × String)),
      cfg.options = some opts ∧ cfg.backends = some bs ∧
      opts.port ≠ 0 ∧ opts.primaryEndpoint ≠ "" ∧ bs.length ≠ 0 ∧
      (bs.any fun kv => kv.1 = opts.primaryEndpoint) = true ∧
      validateLoop opts bs { cfg with secondaryBackends := some [] }
        (configureLogger opts lg) = (none, some cfg1, lg1) := by
  intro cfg cfg1 lg lg1 h
  rcases ho : cfg.options with _ | opts
  · simp [validate, ho] at h
  refine ⟨opts, ?_⟩
  by_cases hp : opts.port = 0
  · simp [validate, ho, hp] at h
  by_cases hpe : opts.primaryEndpoint = ""
  · simp [validate, ho, hp, hpe] at h
  rcases hb : cfg.backends with _ | bs
  · simp [validate, ho, hp, hpe, hb] at h
  refine ⟨bs, rfl, rfl, hp, hpe, ?_⟩
  by_cases hl : bs.length = 0
  · simp [validate, ho, hp, hpe, hb, hl] at h
  by_cases ha : (bs.any fun kv => kv.1 = opts.primaryEndpoint) = true
  · refine ⟨hl, ha, ?_⟩
    simpa [validate, ho, hp, hpe, hb, hl, ha] using h
  · simp [validate, ho, hp, hpe, hb, hl, ha] at h

theorem length_filter_ne (p : String) :
    ∀ l : List String, l.Nodup → p ∈ l →
    (l.filter fun k => k ≠ p).length + 1 = l.length := by
  intro l
  induction l with
  | nil => intro _ hm; exact absurd hm (by simp)
  | cons a l ih =>
    intro hnd hm
    rcases List.mem_cons.mp hm with rfl | hm2
    · have hfl : l.filter (fun k => k ≠ p) = l := by
        rw [List.filter_eq_self]
        intro b hb
        simp only [ne_eq, decide_eq_true_eq]
        intro hcon
        exact (List.nodup_cons.mp hnd).1 (hcon ▸ hb)
      rw [List.filter_cons]
      rw [if_neg (by simp)]
      rw [hfl]
      simp
    · have ha : a ≠ p := by
        intro hcon
        exact (List.nodup_cons.mp hnd).1 (hcon ▸ hm2)
      have hrec := ih (List.nodup_cons.mp hnd).2 hm2
      rw [List.filter_cons]
      rw [if_pos (by simpa using ha)]
      simp only [List.length_cons]
      omega

theorem nodup_keys_inj {β : Type} :
    ∀ (l : List (String × β)), (l.map Prod.fst).Nodup →
    ∀ x ∈ l, ∀ y ∈ l, x.1 = y.1 → x = y := by
  intro l
  induction l with
  | nil => intro _ x hx; exact absurd hx (by simp)
  | cons a l ih =>
    intro hnd x hx y hy hxy
    have hna : a.1 ∉ l.map Prod.fst := (List.nodup_cons.mp (by simpa using hnd)).1
    rcases List.mem_cons.mp hx with rfl | hx2 <;> rcases List.mem_cons.mp hy with rfl | hy2
    · rfl
    · have hmem : x.1 ∈ l.map Prod.fst := by
        rw [hxy]
        exact List.mem_map_of_mem Prod.fst hy2
      exact absurd hmem hna
    · have hmem : y.1 ∈ l.map Prod.fst := by
        rw [← hxy]
        exact List.mem_map_of_mem Prod.fst hx2
      exact absurd hmem hna
    · exact ih (List.nodup_cons.mp (by simpa using hnd)).2 x hx2 y hy2 hxy

theorem newRequest_url_target (req : Request) (b : Bytes) (u : URL) :
    (newRequest req b u).url.scheme = u.scheme ∧
    (newRequest req b u).url.host = u.host := ⟨rfl, rfl⟩

/-- C4: for every configuration accepted by `validate` (whose backend-map
keys, coming from a Go map, are distinct), the derived primary and secondary
backends partition the supplied backend map: the secondary ids are exactly
the non-primary backend ids, each occurring once, the primary id is not
among them, there is one secondary fewer than there are backends, and the
primary backend is the parsed URL of the entry at the primary endpoint id. -/
theorem validate_partitions_backends :
    ∀ (cfg cfg1 : ProxyConfig) (lg lg1 : LoggerState) (opts : ProxyOptions)
      (bs : List (String × String)),
    validate (some cfg) lg = (none, some cfg1, lg1) →
    cfg.options = some opts →
    cfg.backends = some bs →
    (bs.map Prod.fst).Nodup →
    ((cfg1.secondaryBackends.getD []).map Prod.fst =
      (bs.map Prod.fst).filter (fun k => k ≠ opts.primaryEndpoint)) ∧
    opts.primaryEndpoint ∉ (cfg1.secondaryBackends.getD []).map Prod.fst ∧
    (∀ k, k ∈ bs.map Prod.fst → k ≠ opts.primaryEndpoint →
      ((cfg1.secondaryBackends.getD []).map Prod.fst).count k = 1) ∧
    (cfg1.secondaryBackends.getD []).length + 1 = bs.length ∧
    (∃ v, (opts.primaryEndpoint, v) ∈ bs ∧ cfg1.primaryBackend = urlParse v ∧
      (urlParse v).isSome = true) := by
  intro cfg cfg1 lg lg1 opts bs h ho hb hnd
  obtain ⟨opts2, bs2, ho2, hb2, _, _, _, ha2, hloop⟩ := validate_success_elim cfg cfg1 lg lg1 h
  rw [ho] at ho2
  rw [hb] at hb2
  injection ho2 with ho2e
  injection hb2 with hb2e
  subst ho2e
  subst hb2e
  have hids := validateLoop_secondary_ids opts bs _ _ _ _ hloop
  simp only [Option.getD_some, List.map_nil, List.nil_append] at hids
  obtain ⟨kv, hkvmem, hkveq⟩ := List.any_eq_true.mp ha2
  have hkveq2 : kv.1 = opts.primaryEndpoint := by simpa using hkveq
  refine ⟨hids, ?_, ?_, ?_, ?_⟩
  · rw [hids]
    intro hmem
    have := (List.mem_filter.mp hmem).2
    simp at this
  · intro k hk hkne
    rw [hids]
    rw [List.count_filter (by simpa using hkne)]
    exact List.count_eq_one_of_mem hnd hk
  · have hlen : (cfg1.secondaryBackends.getD []).length =
        ((cfg1.secondaryBackends.getD []).map Prod.fst).length :=
      (List.length_map _ _).symm
    rw [hlen, hids]
    have hpmem : opts.primaryEndpoint ∈ bs.map Prod.fst := by
      rw [← hkveq2]
      exact List.mem_map_of_mem Prod.fst hkvmem
    have := length_filter_ne opts.primaryEndpoint (bs.map Prod.fst) hnd hpmem
    simpa using this
  · refine ⟨kv.2, ?_, ?_⟩
    · rw [← hkveq2]
      exact hkvmem
    · have hkv : (opts.primaryEndpoint, kv.2) ∈ bs := by
        rw [← hkveq2]
        exact hkvmem
      exact validateLoop_primary_set opts bs _ _ _ _ kv.2 hloop hnd hkv

/-- C4 witness: the partition facts applied to the concrete valid
configuration `cfgOk` (primary `p`, one secondary `s`). -/
theorem validate_partitions_backends_witness :
    (cfgOkV.secondaryBackends.getD []).map Prod.fst = ["s"] ∧
    (cfgOkV.secondaryBackends.getD []).length + 1 = 2 := by
  have h := validate_partitions_backends cfgOk cfgOkV
    { currentLogLevel := false } { currentLogLevel := false } optsOk
    [("p", "http://ph"), ("s", "http://sh/base")]
    (by decide) rfl rfl (by decide)
  exact ⟨by rw [h.1]; decide, h.2.2.2.1⟩

theorem filter_key_length {β : Type} :
    ∀ (l : List (String × β)) (k : String),
    (l.map Prod.fst).Nodup → k ∈ l.map Prod.fst →
    (l.filter fun kv => kv.1 = k).length = 1 := by
  intro l
  induction l with
  | nil => intro k _ hm; exact absurd hm (by simp)
  | cons a l ih =>
    intro k hnd hm
    have hna : a.1 ∉ l.map Prod.fst := (List.nodup_cons.mp (by simpa using hnd)).1
    rcases List.mem_cons.mp hm with rfl | hm2
    · have hnil : l.filter (fun kv => kv.1 = a.1) = [] := by
        rw [List.filter_eq_nil_iff]
        intro kv hkv
        simp only [decide_eq_true_eq]
        intro hcon
        exact hna (hcon ▸ List.mem_map_of_mem Prod.fst hkv)
      rw [List.filter_cons]
      rw [if_pos (by simp)]
      rw [hnil]
      rfl
    · have hak : a.1 ≠ k := by
        intro hcon
        exact hna (hcon ▸ hm2)
      rw [List.filter_cons]
      rw [if_neg (by simpa using hak)]
      exact ih k (List.nodup_cons.mp (by simpa using hnd)).2 hm2

/-- C1: for a configuration accepted by `validate` with N secondary
backends, the handler dispatches exactly N secondary outbound requests, one
per configured secondary backend — exactly one dispatch carries each
secondary's id, and that dispatch is the sanitized clone aimed at that
backend's URL (its scheme and host) — and N is the number of backends minus
one. -/
theorem handler_secondary_fanout :
    ∀ (cfg cfg1 : ProxyConfig) (lg lg1 : LoggerState) (opts : ProxyOptions)
      (bs : List (String × String)) (req : Request) (p : TransportResult)
      (sres : List TransportResult),
    validate (some cfg) lg = (none, some cfg1, lg1) →
    cfg.options = some opts →
    cfg.backends = some bs →
    (bs.map Prod.fst).Nodup →
    ((handler cfg1 req p sres).secondaryDispatches.length =
      (cfg1.secondaryBackends.getD []).length ∧
     (handler cfg1 req p sres).secondaryDispatches.length + 1 = bs.length ∧
     (∀ ku ∈ cfg1.secondaryBackends.getD [],
       ((handler cfg1 req p sres).secondaryDispatches.filter
         (fun d => d.1 = ku.1)).length = 1) ∧
     (∀ ku ∈ cfg1.secondaryBackends.getD [],
       ∀ d ∈ (handler cfg1 req p sres).secondaryDispatches, d.1 = ku.1 →
         d.2 = newRequest req req.body ku.2 ∧
         d.2.url.scheme = ku.2.scheme ∧ d.2.url.host = ku.2.host)) := by
  intro cfg cfg1 lg lg1 opts bs req p sres h ho hb hnd
  obtain ⟨opts2, bs2, ho2, hb2, _, _, _, ha2, hloop⟩ :=
    validate_success_elim cfg cfg1 lg lg1 h
  rw [ho] at ho2
  rw [hb] at hb2
  injection ho2 with ho2e
  injection hb2 with hb2e
  subst ho2e
  subst hb2e
  have hids := validateLoop_secondary_ids opts bs _ _ _ _ hloop
  simp only [Option.getD_some, List.map_nil, List.nil_append] at hids
  have hSn : ((cfg1.secondaryBackends.getD []).map Prod.fst).Nodup := by
    rw [hids]
    exact List.Nodup.filter _ hnd
  have hD : (handler cfg1 req p sres).secondaryDispatches =
      (cfg1.secondaryBackends.getD []).map
        (fun kv => (kv.1, newRequest req req.body kv.2)) := rfl
  refine ⟨?_, ?_, ?_, ?_⟩
  · rw [hD, List.length_map]
  · rw [hD, List.length_map]
    have hpmem : opts.primaryEndpoint ∈ bs.map Prod.fst := by
      obtain ⟨kv, hkvmem, hkveq⟩ := List.any_eq_true.mp ha2
      have : kv.1 = opts.primaryEndpoint := by simpa using hkveq
      rw [← this]
      exact List.mem_map_of_mem Prod.fst hkvmem
    have hflen := length_filter_ne opts.primaryEndpoint (bs.map Prod.fst) hnd hpmem
    have hSlen : (cfg1.secondaryBackends.getD []).length =
        ((cfg1.secondaryBackends.getD []).map Prod.fst).length :=
      (List.length_map _ _).symm
    rw [hSlen, hids]
    simpa using hflen
  · intro ku hku
    rw [hD]
    have hfm : ((cfg1.secondaryBackends.getD []).map
        (fun kv => (kv.1, newRequest req req.body kv.2))).filter
          (fun d => d.1 = ku.1) =
        ((cfg1.secondaryBackends.getD []).filter
          (fun kv => kv.1 = ku.1)).map
            (fun kv => (kv.1, newRequest req req.body kv.2)) := by
      rw [List.filter_map]
      rfl
    rw [hfm, List.length_map]
    exact filter_key_length _ ku.1 hSn (List.mem_map_of_mem Prod.fst hku)
  · intro ku hku d hd hdk
    rw [hD] at hd
    obtain ⟨kv, hkv, hkvd⟩ := List.mem_map.mp hd
    have hkk : kv.1 = ku.1 := by
      rw [← hdk, ← hkvd]
    have hkveq : kv = ku := nodup_keys_inj _ hSn kv hkv ku hku hkk
    subst hkveq
    refine ⟨by rw [← hkvd], ?_, ?_⟩
    · rw [← hkvd]
      exact (newRequest_url_target req req.body kv.2).1
    · rw [← hkvd]
      exact (newRequest_url_target req req.body kv.2).2

/-- C1 witness: the fan-out facts applied to the concrete valid
configuration `cfgOk` (one secondary), an inbound request and a failed
primary outcome. -/
theorem handler_secondary_fanout_witness :
    (handler cfgOkV reqQ (Except.error "down") []).secondaryDispatches.length + 1 = 2 := by
  exact (handler_secondary_fanout cfgOk cfgOkV
    { currentLogLevel := false } { currentLogLevel := false } optsOk
    [("p", "http://ph"), ("s", "http://sh/base")] reqQ (Except.error "down") []
    (by decide) rfl rfl (by decide)).2.1

/-- C7 counterexample: `validate` can fail and still have changed
process-wide state — on a configuration whose options request INFO logging
but whose port is 0, it returns a configuration error after having switched
the global log level from ERROR (false) to INFO (true). -/
theorem validate_error_mutates_logger :
    (validate (some cfgLog) { currentLogLevel := false }).1.isSome = true ∧
    (validate (some cfgLog) { currentLogLevel := false }).2.2 =
      { currentLogLevel := true } ∧
    ({ currentLogLevel := true } : LoggerState) ≠ { currentLogLevel := false } := by
  decide

/-- C7 (amended): validation is not all-or-nothing.  Failures at the nil
config or missing options block leave every state unchanged, but once the
options block is present the process-wide logger has already been
reconfigured whatever the outcome, and a failure of the primary-membership
check leaves the freshly initialized secondary partition recorded on the
configuration; fully derived state is guaranteed only on success. -/
theorem validate_failure_state_effects :
    (∀ lg : LoggerState,
      validate none lg =
        (some (proxyError "Configuration for proxy must be provided"), none, lg)) ∧
    (∀ (cfg : ProxyConfig) (lg : LoggerState), cfg.options = none →
      validate (some cfg) lg =
        (some (proxyError "Proxy options are missing"), some cfg, lg)) ∧
    (∀ (cfg : ProxyConfig) (opts : ProxyOptions) (lg : LoggerState),
      cfg.options = some opts →
      (validate (some cfg) lg).2.2 = configureLogger opts lg) ∧
    (∀ (cfg : ProxyConfig) (opts : ProxyOptions) (bs : List (String × String))
        (lg : LoggerState),
      cfg.options = some opts → cfg.backends = some bs → bs.length ≠ 0 →
      opts.port ≠ 0 → opts.primaryEndpoint ≠ "" →
      (bs.any fun kv => kv.1 = opts.primaryEndpoint) = false →
      (validate (some cfg) lg).1.isSome = true ∧
      (validate (some cfg) lg).2.1 = some { cfg with secondaryBackends := some [] }) := by
  refine ⟨fun lg => rfl, ?_, ?_, ?_⟩
  · intro cfg lg ho
    simp [validate, ho]
  · intro cfg opts lg ho
    by_cases hp : opts.port = 0
    · simp [validate, ho, hp, configureLogger]
    by_cases hpe : opts.primaryEndpoint = ""
    · simp [validate, ho, hp, hpe, configureLogger]
    rcases hb : cfg.backends with _ | bs
    · simp [validate, ho, hp, hpe, hb, configureLogger]
    by_cases hl : bs.length = 0
    · simp [validate, ho, hp, hpe, hb, hl, configureLogger]
    by_cases ha : (bs.any fun kv => kv.1 = opts.primaryEndpoint) = true
    · simp [validate, ho, hp, hpe, hb, hl, ha, validateLoop_logger]
    · simp [validate, ho, hp, hpe, hb, hl, ha, configureLogger]
  · intro cfg opts bs lg ho hb hl hp hpe ha
    constructor <;> simp [validate, ho, hb, hp, hpe, hl, ha]

/-- C7 witness: the non-atomicity facts applied to concrete failing
configurations. -/
theorem validate_failure_state_effects_witness :
    (validate (some cfgLog) { currentLogLevel := false }).2.2 =
      configureLogger optsLog { currentLogLevel := false } ∧
    (validate (some cfgNoPrim) { currentLogLevel := false }).1.isSome = true ∧
    (validate (some cfgNoPrim) { currentLogLevel := false }).2.1 =
      some { cfgNoPrim with secondaryBackends := some [] } := by
  refine ⟨validate_failure_state_effects.2.2.1 cfgLog optsLog
      { currentLogLevel := false } rfl, ?_, ?_⟩
  · exact (validate_failure_state_effects.2.2.2 cfgNoPrim optsNP [("a", "http://x")]
      { currentLogLevel := false } rfl rfl (by decide) (by decide) (by decide)
      (by decide)).1
  · exact (validate_failure_state_effects.2.2.2 cfgNoPrim optsNP [("a", "http://x")]
      { currentLogLevel := false } rfl rfl (by decide) (by decide) (by decide)
      (by decide)).2

/-- C3: if the primary backend invocation returns a transport error the
handler writes status 503 with the error message as the body (followed by
the newline of the line-print); on primary success the caller gets exactly
the assembled primary response; and the caller-visible response is a
function of the primary outcome alone — the secondary outcomes never
change it. -/
theorem handler_backend_failure_isolation :
    (∀ (config : ProxyConfig) (req : Request) (e : String)
        (sres : List TransportResult),
      (handler config req (Except.error e) sres).caller =
        { header := [], status := statusServiceUnavailable, body := e ++ "\n" }) ∧
    (∀ (config : ProxyConfig) (req : Request) (res : Response)
        (sres : List TransportResult),
      (handler config req (Except.ok res) sres).caller =
        copyResponse initialCallerResponse res) ∧
    (∀ (config : ProxyConfig) (req : Request) (p : TransportResult)
        (sres1 sres2 : List TransportResult),
      (handler config req p sres1).caller = (handler config req p sres2).caller) := by
  refine ⟨fun config req e sres => ?_, fun config req res sres => rfl,
    fun config req p sres1 sres2 => rfl⟩
  rfl

/-- C5: `singleJoiningSlash` joins with exactly one slash at the seam — if
both sides have a slash one is dropped, if neither has one a slash is
inserted, otherwise plain concatenation — and the four example joins all
yield `/a/b`. -/
theorem singleJoiningSlash_single_slash :
    (∀ a b : String, strEndsWith a "/" = true → strStartsWith b "/" = true →
      singleJoiningSlash a b = ⟨a.data ++ b.data.drop 1⟩) ∧
    (∀ a b : String, strEndsWith a "/" = false → strStartsWith b "/" = false →
      singleJoiningSlash a b = a ++ "/" ++ b) ∧
    (∀ a b : String, strEndsWith a "/" ≠ strStartsWith b "/" →
      singleJoiningSlash a b = a ++ b) ∧
    singleJoiningSlash "/a/" "/b" = "/a/b" ∧
    singleJoiningSlash "/a" "b" = "/a/b" ∧
    singleJoiningSlash "/a/" "b" = "/a/b" ∧
    singleJoiningSlash "/a" "/b" = "/a/b" := by
  refine ⟨fun a b h1 h2 => ?_, fun a b h1 h2 => ?_, fun a b h => ?_,
    by decide, by decide, by decide, by decide⟩
  · simp [singleJoiningSlash, h1, h2]
  · simp [singleJoiningSlash, h1, h2]
  · cases h1 : strEndsWith a "/" <;> cases h2 : strStartsWith b "/" <;>
      simp_all [singleJoiningSlash]

/-- C5 witness: the seam rules applied at concrete inputs. -/
theorem singleJoiningSlash_single_slash_witness :
    singleJoiningSlash "x/" "/y" = "x/y" ∧ singleJoiningSlash "x" "y" = "x/y" := by
  constructor
  · have h := singleJoiningSlash_single_slash.1 "x/" "/y" (by decide) (by decide)
    rw [h]; decide
  · have h := singleJoiningSlash_single_slash.2.1 "x" "y" (by decide) (by decide)
    rw [h]; decide

/-- C9: the merged outbound query places the target backend's query first —
`targetQuery&requestQuery` when both are non-empty, plain concatenation when
either is empty. -/
theorem outbound_query_order :
    ∀ (req : Request) (target : URL),
    (target.rawQuery ≠ "" → req.url.rawQuery ≠ "" →
      (modifyRequestForProxy req target).url.rawQuery =
        target.rawQuery ++ "&" ++ req.url.rawQuery) ∧
    ((target.rawQuery = "" ∨ req.url.rawQuery = "") →
      (modifyRequestForProxy req target).url.rawQuery =
        target.rawQuery ++ req.url.rawQuery) := by
  intro req target
  constructor
  · intro h1 h2
    simp [modifyRequestForProxy, h1, h2]
  · intro h
    rcases h with h | h <;> simp [modifyRequestForProxy, h]

/-- C9 witness: with target query `a=1` and request query `b=2` the outbound
query is `a=1&b=2`. -/
theorem outbound_query_order_witness :
    (modifyRequestForProxy reqQ targetQ).url.rawQuery = "a=1&b=2" := by
  have h := (outbound_query_order reqQ targetQ).1 (by decide) (by decide)
  rw [h]; decide

/-- C2 (code evaluation at the failing input): on an inbound request with
`Connection: close` and `Keep-Alive: 300`, the outbound clone built by
`newRequest` still carries `Connection: close` — the loop deletes only the
headers named inside the `Connection` value, never the `Connection` header
itself — while the present `Keep-Alive` header is removed as documented. -/
theorem newRequest_retains_connection_header :
    headerGet (newRequest reqConn [] backendURL).header "Connection" = "close" ∧
    (newRequest reqConn [] backendURL).header =
      [("Connection", ["close"]), ("User-Agent", [""])] := by decide

/-- C6 counterexample: `validate` accepts a configuration whose port is the
negative integer `-1`, so it does not reject every non-positive port and can
succeed with a port that is not strictly greater than zero. -/
theorem validate_accepts_negative_port :
    (validate (some cfgNeg) { currentLogLevel := false }).1 = none ∧
    cfgNeg.options = some optsNeg ∧ optsNeg.port = -1 := by decide

/-- C6 (amended): given a non-nil config with a non-nil options block,
`validate` rejects with the distinct port error exactly when the port equals
zero, so success implies only that the port is non-zero (a negative port is
accepted). -/
theorem validate_port_zero_check :
    ∀ (cfg : ProxyConfig) (opts : ProxyOptions) (lg : LoggerState),
    cfg.options = some opts →
    ((opts.port = 0 →
      (validate (some cfg) lg).1 =
        some (proxyError "Proxy port is missing in proxy options")) ∧
     ((validate (some cfg) lg).1 = none → opts.port ≠ 0)) := by
  intro cfg opts lg h
  constructor
  · intro hp
    simp [validate, h, hp]
  · intro hs hp
    simp [validate, h, hp] at hs

/-- C6 witness: the amended port check applied to a concrete configuration
with port `0`. -/
theorem validate_port_zero_check_witness :
    (validate (some cfgZero) { currentLogLevel := false }).1 =
      some (proxyError "Proxy port is missing in proxy options") := by
  exact (validate_port_zero_check cfgZero optsZero { currentLogLevel := false } rfl).1 rfl

theorem readRef_append (st ext : Store) (r : Nat) (h : r < st.length) :
    readRef (st ++ ext) r = readRef st r :=
  List.getD_append st ext [] r h

theorem readRef_concat_length (st : Store) (x : List String) :
    readRef (st ++ [x]) st.length = x := by
  show (st ++ [x]).getD st.length [] = x
  rw [List.getD_append_right st [x] [] st.length (le_refl _)]
  simp

theorem readRef_writeRef_ne (st : Store) (r1 r2 : Nat) (v : List String)
    (h : r1 ≠ r2) : readRef (writeRef st r1 v) r2 = readRef st r2 := by
  simp [readRef, writeRef, List.getD_eq_getElem?_getD, List.getElem?_set_ne h]

theorem cloneHeaderAlloc_store_length :
    ∀ (h : RefHeader) (st : Store),
    (cloneHeaderAlloc h st).2.length = st.length + h.length := by
  intro h
  induction h with
  | nil => intro st; rfl
  | cons kv rest ih =>
    intro st
    show (cloneHeaderAlloc rest (st ++ [readRef st kv.2])).2.length = _
    rw [ih]
    simp [List.length_append]
    omega

theorem cloneHeaderAlloc_store_read :
    ∀ (h : RefHeader) (st : Store) (r : Nat), r < st.length →
    readRef (cloneHeaderAlloc h st).2 r = readRef st r := by
  intro h
  induction h with
  | nil => intro st r _; rfl
  | cons kv rest ih =>
    intro st r hr
    show readRef (cloneHeaderAlloc rest (st ++ [readRef st kv.2])).2 r = readRef st r
    rw [ih _ r (by simp [List.length_append]; omega)]
    exact readRef_append st [readRef st kv.2] r hr

theorem cloneHeaderAlloc_keys :
    ∀ (h : RefHeader) (st : Store),
    (cloneHeaderAlloc h st).1.map Prod.fst = h.map Prod.fst := by
  intro h
  induction h with
  | nil => intro st; rfl
  | cons kv rest ih =>
    intro st
    show ((kv.1, st.length) ::
      (cloneHeaderAlloc rest (st ++ [readRef st kv.2])).1).map Prod.fst = _
    simp [ih]

theorem cloneHeaderAlloc_refs_lb :
    ∀ (h : RefHeader) (st : Store), ∀ e ∈ (cloneHeaderAlloc h st).1,
    st.length ≤ e.2 ∧ e.2 < st.length + h.length := by
  intro h
  induction h with
  | nil => intro st e he; exact absurd he (by simp [cloneHeaderAlloc])
  | cons kv rest ih =>
    intro st e he
    have he2 : e ∈ (kv.1, st.length) ::
        (cloneHeaderAlloc rest (st ++ [readRef st kv.2])).1 := he
    rcases List.mem_cons.mp he2 with rfl | hm
    · constructor
      · exact le_refl _
      · simp only [List.length_cons]
        omega
    · obtain ⟨h1, h2⟩ := ih (st ++ [readRef st kv.2]) e hm
      simp only [List.length_append, List.length_cons, List.length_nil] at h1 h2
      simp only [List.length_cons]
      omega

theorem cloneHeaderAlloc_contents :
    ∀ (h : RefHeader) (st : Store), (∀ kv ∈ h, kv.2 < st.length) →
    ∀ pr ∈ h.zip (cloneHeaderAlloc h st).1,
      readRef (cloneHeaderAlloc h st).2 pr.2.2 = readRef st pr.1.2 := by
  intro h
  induction h with
  | nil => intro st _ pr hpr; exact absurd hpr (by simp [cloneHeaderAlloc])
  | cons kv rest ih =>
    intro st hval pr hpr
    have hpr2 : pr ∈ (kv, (kv.1, st.length)) ::
        rest.zip (cloneHeaderAlloc rest (st ++ [readRef st kv.2])).1 := hpr
    rcases List.mem_cons.mp hpr2 with rfl | hm
    · show readRef (cloneHeaderAlloc rest (st ++ [readRef st kv.2])).2 st.length =
        readRef st kv.2
      rw [cloneHeaderAlloc_store_read rest _ st.length
        (by simp [List.length_append])]
      exact readRef_concat_length st (readRef st kv.2)
    · have hval1 : ∀ kv2 ∈ rest, kv2.2 < (st ++ [readRef st kv.2]).length := by
        intro kv2 hm2
        rw [List.length_append]
        have := hval kv2 (List.mem_cons_of_mem _ hm2)
        simp only [List.length_singleton]
        omega
      have hrec := ih (st ++ [readRef st kv.2]) hval1 pr hm
      have hstep : readRef (st ++ [readRef st kv.2]) pr.1.2 = readRef st pr.1.2 := by
        apply readRef_append
        exact hval pr.1 (List.mem_cons_of_mem _ (List.of_mem_zip hm).1)
      show readRef (cloneHeaderAlloc rest (st ++ [readRef st kv.2])).2 pr.2.2 =
        readRef st pr.1.2
      rw [← hstep]
      exact hrec

/-- C8: `cloneHeader` (as installed by `newRequest` on every outbound clone)
is a deep copy at the allocation level.  Cloning the inbound header map twice
in sequence (one clone per outbound request) gives maps with the same keys
whose slices hold the inbound values, and overwriting a value slice through
any reference of the first clone changes neither what the inbound map's
references read nor what the second clone's references read. -/
theorem cloneHeader_deep_copy :
    ∀ (h : RefHeader) (st : Store),
    (∀ kv ∈ h, kv.2 < st.length) →
    ((cloneHeaderAlloc h st).1.map Prod.fst = h.map Prod.fst ∧
     (cloneHeaderAlloc h (cloneHeaderAlloc h st).2).1.map Prod.fst = h.map Prod.fst ∧
     (∀ pr ∈ h.zip (cloneHeaderAlloc h st).1,
       readRef (cloneHeaderAlloc h (cloneHeaderAlloc h st).2).2 pr.2.2 =
         readRef st pr.1.2) ∧
     (∀ pr ∈ h.zip (cloneHeaderAlloc h (cloneHeaderAlloc h st).2).1,
       readRef (cloneHeaderAlloc h (cloneHeaderAlloc h st).2).2 pr.2.2 =
         readRef st pr.1.2) ∧
     (∀ e1 ∈ (cloneHeaderAlloc h st).1, ∀ v : List String,
       (∀ kv ∈ h,
         readRef (writeRef (cloneHeaderAlloc h (cloneHeaderAlloc h st).2).2 e1.2 v)
             kv.2 =
           readRef (cloneHeaderAlloc h (cloneHeaderAlloc h st).2).2 kv.2) ∧
       (∀ e2 ∈ (cloneHeaderAlloc h (cloneHeaderAlloc h st).2).1,
         readRef (writeRef (cloneHeaderAlloc h (cloneHeaderAlloc h st).2).2 e1.2 v)
             e2.2 =
           readRef (cloneHeaderAlloc h (cloneHeaderAlloc h st).2).2 e2.2))) := by
  intro h st hval
  have hlen2a : (cloneHeaderAlloc h st).2.length = st.length + h.length :=
    cloneHeaderAlloc_store_length h st
  have hval2 : ∀ kv ∈ h, kv.2 < (cloneHeaderAlloc h st).2.length := by
    intro kv hm
    rw [hlen2a]
    exact lt_of_lt_of_le (hval kv hm) (Nat.le_add_right _ _)
  refine ⟨cloneHeaderAlloc_keys h st, cloneHeaderAlloc_keys h _, ?_, ?_, ?_⟩
  · intro pr hpr
    obtain ⟨_, hub⟩ := cloneHeaderAlloc_refs_lb h st pr.2 (List.of_mem_zip hpr).2
    rw [cloneHeaderAlloc_store_read h _ pr.2.2 (by rw [hlen2a]; exact hub)]
    exact cloneHeaderAlloc_contents h st hval pr hpr
  · intro pr hpr
    rw [cloneHeaderAlloc_contents h _ hval2 pr hpr]
    exact cloneHeaderAlloc_store_read h st pr.1.2 (hval pr.1 (List.of_mem_zip hpr).1)
  · intro e1 he1 v
    obtain ⟨hlb1, hub1⟩ := cloneHeaderAlloc_refs_lb h st e1 he1
    constructor
    · intro kv hkv
      have hne : e1.2 ≠ kv.2 := by
        have := hval kv hkv
        omega
      exact readRef_writeRef_ne _ _ _ v hne
    · intro e2 he2
      obtain ⟨hlb2, _⟩ := cloneHeaderAlloc_refs_lb h _ e2 he2
      have hne : e1.2 ≠ e2.2 := by
        rw [hlen2a] at hlb2
        omega
      exact readRef_writeRef_ne _ _ _ v hne

/-- C8 witness: the deep-copy facts applied to a concrete one-entry header
map whose single slice lives at store index 0. -/
theorem cloneHeader_deep_copy_witness :
    (cloneHeaderAlloc [("Accept", 0)] [["x"]]).1.map Prod.fst = ["Accept"] := by
  exact (cloneHeader_deep_copy [("Accept", 0)] [["x"]] (by decide)).1

/-- C10: a director built by `NewDirector` starts with the no-op reporter;
`WithMetricsReporter` ignores a nil argument and installs a non-nil one; and
therefore the reporter stays non-nil across any sequence of
`WithMetricsReporter` calls. -/
theorem director_reporter_nonnil :
    (∀ (pc : Option ProxyConfig) (lg : LoggerState) (d : Director) (lg1 : LoggerState),
      NewDirector pc lg = (Except.ok d, lg1) → d.reporter = some Reporter.noOp) ∧
    (∀ b : Director, WithMetricsReporter b none = b) ∧
    (∀ (b : Director) (r : Reporter),
      (WithMetricsReporter b (some r)).reporter = some r) ∧
    (∀ (b : Director) (rs : List (Option Reporter)), b.reporter.isSome = true →
      (rs.foldl WithMetricsReporter b).reporter.isSome = true) := by
  refine ⟨?_, fun b => rfl, fun b r => rfl, ?_⟩
  · intro pc lg d lg1 h
    unfold NewDirector at h
    split at h
    · exact absurd h (by simp)
    · simp only [Prod.mk.injEq, Except.ok.injEq] at h
      rcases h with ⟨h1, _⟩
      rw [← h1]
    · exact absurd h (by simp)
  · intro b rs
    induction rs generalizing b with
    | nil => intro h; exact h
    | cons r rs ih =>
      intro h
      simp only [List.foldl_cons]
      apply ih
      cases r with
      | none => exact h
      | some r0 => rfl

/-- C10 witness: the reporter facts applied to the concrete director built
from `cfgOk`. -/
theorem director_reporter_nonnil_witness :
    dOk.reporter = some Reporter.noOp ∧
    WithMetricsReporter dOk none = dOk ∧
    (([some (Reporter.external 1), none].foldl WithMetricsReporter dOk).reporter.isSome
      = true) := by
  refine ⟨director_reporter_nonnil.1 (some cfgOk) { currentLogLevel := false } dOk
      { currentLogLevel := false } (by rfl),
    director_reporter_nonnil.2.1 dOk,
    director_reporter_nonnil.2.2.2 dOk [some (Reporter.external 1), none] (by decide)⟩

end Director
